import Mathlib

/-!
Shallow embedding of the af-sui-decorators coin-selection and
transaction-response-interpretation core.

The definitions below are translated from the Rust sources:
* `src/af-transaction-api/src/signed_transaction_api/mod.rs`
  (`SignedTransactionApi::get_coin_amount`, the canonical selection routine),
* `src/af-transaction-api/src/lib.rs`
  (`sign_and_assert_success`, `ensure_transaction_success`,
  `get_transaction_effects_v1`, `PublishedObjects::try_from`),
* `src/af-transaction-api/src/transaction_response_api/transaction_response.rs`
  (`TransactionResponse::try_from`, `TransactionResponse::check_execution_status`),
* `src/af-read-api/src/lib.rs` (`ReadObject::read_object`).

Ledger interaction (coin listing, transaction submission, object reads) is
modelled by an explicit environment `LedgerEnv`; submissions performed by a
call are returned as an explicit log. Rust panics (failed `assert!`,
`unwrap()` on `None`, out-of-bounds indexing) are modelled by a dedicated
`panicked` outcome, distinct from typed errors.
-/

namespace AfSui

/-- Move struct tag (`move_core_types::language_storage::StructTag`):
address, module, name and the type parameters rendered as strings. -/
structure StructTag where
  address : String
  module : String
  name : String
  typeParams : List String
deriving DecidableEq

/-- An rpc coin record (`sui_sdk::rpc_types::Coin`), restricted to the two
fields the selection algorithm reads. -/
structure Coin where
  coin_object_id : Nat
  balance : Nat
deriving DecidableEq

/-- `sui_sdk::rpc_types::ObjectChange`, with the variants the code does not
inspect collapsed into `other`. -/
inductive ObjectChange where
  | created (objectType : StructTag) (objectId : Nat)
  | published (packageId : Nat)
  | other
deriving DecidableEq

/-- `SuiExecutionStatus`. -/
inductive ExecutionStatus where
  | success
  | failure (error : String)
deriving DecidableEq

/-- `SuiTransactionBlockEffectsV1`, restricted to the fields the code reads. -/
structure EffectsV1 where
  status : ExecutionStatus
  gas_used : Nat
deriving DecidableEq

/-- `SuiTransactionBlockResponse`, restricted to the fields the code reads. -/
structure TxResponse where
  confirmed_local_execution : Option Bool
  effects : Option EffectsV1
  object_changes : Option (List ObjectChange)
deriving DecidableEq

/-- `SuiTransactionBlockResponseOptions`. -/
structure ResponseOptions where
  show_input : Bool
  show_effects : Bool
  show_events : Bool
  show_object_changes : Bool
  show_balance_changes : Bool
deriving DecidableEq

/-- `SuiTransactionBlockResponseOptions::new()`: all flags off. -/
def ResponseOptions.new : ResponseOptions :=
  ⟨false, false, false, false, false⟩

/-- `.with_effects()`. -/
def ResponseOptions.with_effects (o : ResponseOptions) : ResponseOptions :=
  { o with show_effects := true }

/-- `.with_object_changes()`. -/
def ResponseOptions.with_object_changes (o : ResponseOptions) : ResponseOptions :=
  { o with show_object_changes := true }

/-- `af_types::gas_info::GasInfo`. -/
structure GasInfo where
  object : Option Nat
  budget : Nat
deriving DecidableEq

/-- The on-chain Move `Coin` object (`sui_types::coin::Coin`) as decoded by
`read_object`; `value()` returns the balance. -/
structure CoinObject where
  id : Nat
  balance : Nat
deriving DecidableEq

/-- `Coin::value()` (returns `self.balance.value()`). -/
def CoinObject.value (c : CoinObject) : Nat := c.balance

/-- The Move-object half of `SuiRawData`; `deserializeCoin` is the result of
BCS-deserializing the payload as a `Coin`. -/
structure MoveObjectData where
  deserializeCoin : Except String CoinObject

/-- `SuiRawData`: either a Move object or a package. -/
inductive SuiRawData where
  | moveObject (data : MoveObjectData)
  | package

/-- `SuiRawData::try_as_move()`. -/
def SuiRawData.try_as_move : SuiRawData → Option MoveObjectData
  | .moveObject d => some d
  | .package => none

/-- `SuiObjectData`, restricted to the `bcs` field read by `read_object`. -/
structure SuiObjectData where
  bcs : Option SuiRawData

/-- A ledger object response; `intoObject` models `into_object()`, which
fails when the object does not exist or was deleted. -/
structure SuiObjectResponse where
  intoObject : Except String SuiObjectData

/-- Outcome of `read_object`: success, a propagated error, or a Rust panic. -/
inductive ReadOutcome (α : Type) where
  | ok (value : α)
  | clientErr (msg : String)
  | panicked
deriving DecidableEq

/-- `ReadObject::read_object` (src/af-read-api/src/lib.rs): fetch with BCS
options, `into_object()?`, then `.bcs.unwrap().try_as_move().unwrap()
.deserialize()`. The two `unwrap()` calls panic when the object data has no
BCS payload or the payload is not a Move object. -/
def read_object (resp : SuiObjectResponse) : ReadOutcome CoinObject :=
  match resp.intoObject with
  | .error e => .clientErr e
  | .ok data =>
    match data.bcs with
    | none => .panicked
    | some raw =>
      match raw.try_as_move with
      | none => .panicked
      | some m =>
        match m.deserializeCoin with
        | .error e => .clientErr e
        | .ok c => .ok c

/-- `sui_types::coin::Coin::is_coin`: the tag is `0x2::coin::Coin`. -/
def isCoin (t : StructTag) : Bool :=
  t.address == "0x2" && t.module == "coin" && t.name == "Coin"

/-- Typed errors surfaced by `get_coin_amount` (the two `bail!` sites plus
propagated client errors). -/
inductive SelectionError where
  | insufficientBalance (sender : String) (coinType : String) (amount : Nat)
  | splitResultNotFound
  | clientError (msg : String)
deriving DecidableEq

/-- Outcome of a selection call: success, typed error, or Rust panic. -/
inductive Outcome (α : Type) where
  | ok (value : α)
  | err (e : SelectionError)
  | panicked
deriving DecidableEq

/-- A split transaction submission performed by `get_coin_amount`:
the arguments handed to `transaction_builder().split_coin(...)` plus the
response options the submission requested. -/
structure SubmittedTx where
  sender : String
  coinId : Nat
  amounts : List Nat
  gasObject : Option Nat
  gasBudget : Nat
  options : ResponseOptions
deriving DecidableEq

/-- The external ledger, as observed by one `get_coin_amount` call:
the coin listing returned by `get_all_coins`, the response returned for the
(single possible) split submission, and the object responses served to
`read_object`. -/
structure LedgerEnv where
  coins : List Coin
  splitResponse : TxResponse
  readObjectResponse : Nat → SuiObjectResponse

/-- The single scan loop of `get_coin_amount`: `equal` is set and the loop
breaks on the first coin whose balance equals `amount`; `greater` is
overwritten (without breaking) at every coin whose balance is strictly
greater. Indices count from `i`. -/
def scanCoinsGo (amount : Nat) : Nat → Option Nat → List Coin → Option Nat × Option Nat
  | _, greater, [] => (none, greater)
  | i, greater, c :: rest =>
    if c.balance = amount then (some i, greater)
    else if amount < c.balance then scanCoinsGo amount (i + 1) (some i) rest
    else scanCoinsGo amount (i + 1) greater rest

/-- The scan over `coins.data.iter().enumerate()`. -/
def scanCoins (amount : Nat) (coins : List Coin) : Option Nat × Option Nat :=
  scanCoinsGo amount 0 none coins

/-- The post-split lookup loop of `get_coin_amount`: for each Created change
whose type is `Coin` and whose first type parameter equals `coin_type`, read
the object and return its id when its value equals `amount`; when no change
qualifies, fail with `splitResultNotFound` (the `bail!` at the end).
Indexing `type_params[0]` on an empty list is a Rust panic. -/
def findSplitCoin (read : Nat → SuiObjectResponse) (coinType : String) (amount : Nat) :
    List ObjectChange → Outcome Nat
  | [] => .err .splitResultNotFound
  | .created ty oid :: rest =>
    if isCoin ty then
      match ty.typeParams with
      | [] => .panicked
      | p :: _ =>
        if p == coinType then
          match read_object (read oid) with
          | .panicked => .panicked
          | .clientErr e => .err (.clientError e)
          | .ok c =>
            if c.value = amount then .ok oid
            else findSplitCoin read coinType amount rest
        else findSplitCoin read coinType amount rest
    else findSplitCoin read coinType amount rest
  | .published _ :: rest => findSplitCoin read coinType amount rest
  | .other :: rest => findSplitCoin read coinType amount rest

/-- `SignedTransactionApi::get_coin_amount`
(src/af-transaction-api/src/signed_transaction_api/mod.rs, the canonical
selection routine): scan the coin listing; return the first exact match
directly; otherwise split the last strictly-greater coin into
`[amount, balance - amount]`, submit with effects and object-changes
options, `assert!` local confirmation, and look the created coin up in the
object-change list; otherwise fail with `insufficientBalance`.
Returns the outcome together with the log of split submissions performed. -/
def get_coin_amount (env : LedgerEnv) (amount : Nat) (coinType : String)
    (sender : String) (gas : GasInfo) : Outcome Nat × List SubmittedTx :=
  let coins := env.coins
  match scanCoins amount coins with
  | (some i, _) =>
    match coins.get? i with
    | some c => (.ok c.coin_object_id, [])
    | none => (.panicked, [])
  | (none, some i) =>
    match coins.get? i with
    | none => (.panicked, [])
    | some primary =>
      let tx : SubmittedTx :=
        { sender := sender
          coinId := primary.coin_object_id
          amounts := [amount, primary.balance - amount]
          gasObject := gas.object
          gasBudget := gas.budget
          options := ResponseOptions.new.with_effects.with_object_changes }
      let response := env.splitResponse
      match response.confirmed_local_execution with
      | some true =>
        match response.object_changes with
        | none => (.panicked, [tx])
        | some changes =>
          (findSplitCoin env.readObjectResponse coinType amount changes, [tx])
      | _ => (.panicked, [tx])
  | (none, none) => (.err (.insufficientBalance sender coinType amount), [])

/-- `sign_and_assert_success` (src/af-transaction-api/src/lib.rs), as a
function of the response its inner `sign_and_execute_with_effects` call
returned: `assert!(confirmed_local_execution.is_some() && ...unwrap())`
panics unless the flag is `Some(true)`. -/
def sign_and_assert_success (response : TxResponse) : Outcome Unit :=
  match response.confirmed_local_execution with
  | some true => .ok ()
  | _ => .panicked

/-- Typed errors of the response-interpretation functions (the `anyhow!`
messages of the source, as variants). -/
inductive RespError where
  | missingEffects
  | noObjectChanges
  | missingPackageId
  | txFailure (error : String)
deriving DecidableEq

/-- `get_transaction_effects_v1` (src/af-transaction-api/src/lib.rs):
the effects section, or the "No transaction effects in response" error. -/
def get_transaction_effects_v1 (response : TxResponse) : Except RespError EffectsV1 :=
  match response.effects with
  | some effects => .ok effects
  | none => .error .missingEffects

/-- `ensure_transaction_success` (src/af-transaction-api/src/lib.rs):
propagates `get_transaction_effects_v1`'s error, then bails on a reported
`Failure` status. -/
def ensure_transaction_success (response : TxResponse) : Except RespError Unit :=
  match get_transaction_effects_v1 response with
  | .error e => .error e
  | .ok effects =>
    match effects.status with
    | .failure error => .error (.txFailure error)
    | .success => .ok ()

/-- `CreatedObject` (src/af-transaction-api/src/lib.rs). -/
structure CreatedObject where
  object_id : Nat
  object_type : StructTag
deriving DecidableEq

/-- The grouping key `object_type.module.to_string() + "::" + object_type.name`. -/
def createdKey (t : StructTag) : String :=
  t.module ++ "::" ++ t.name

/-- `PublishedObjects` (src/af-transaction-api/src/lib.rs); the `HashMap` is
modelled by its lookup function, with absent keys reading as `[]` (the
`entry(..).or_default()` default). -/
structure PublishedObjects where
  package_id : Nat
  objects : String → List CreatedObject

/-- The empty map. -/
def emptyObjects : String → List CreatedObject := fun _ => []

/-- `objects.entry(key).or_default().push(created)`. -/
def insertCreated (m : String → List CreatedObject) (key : String)
    (c : CreatedObject) : String → List CreatedObject :=
  fun k => if k = key then m k ++ [c] else m k

/-- One iteration of the `PublishedObjects::try_from` loop: a Created change
is pushed under its key, a Published change overwrites the package, and
every other change is ignored. -/
def pubStep (acc : Option Nat × (String → List CreatedObject))
    (change : ObjectChange) : Option Nat × (String → List CreatedObject) :=
  match change with
  | .created ty oid => (acc.1, insertCreated acc.2 (createdKey ty) ⟨oid, ty⟩)
  | .published pid => (some pid, acc.2)
  | .other => acc

/-- `PublishedObjects::try_from` (src/af-transaction-api/src/lib.rs):
requires the object-change list ("No object changes in transaction"),
folds the loop above over it, and requires a package to have been seen
("Missing package id in tx response"). -/
def PublishedObjects.tryFrom (value : TxResponse) : Except RespError PublishedObjects :=
  match value.object_changes with
  | none => .error .noObjectChanges
  | some changes =>
    let acc := changes.foldl pubStep (none, emptyObjects)
    match acc.1 with
    | some pid => .ok ⟨pid, acc.2⟩
    | none => .error .missingPackageId

/-- `TransactionResponse`
(src/af-transaction-api/src/transaction_response_api/transaction_response.rs). -/
structure TransactionResponse where
  package_id : Option Nat
  object_changes : Option (List ObjectChange)
  execution_status : Option ExecutionStatus
deriving DecidableEq

/-- One iteration of the package loop of `TransactionResponse::try_from`. -/
def trPkgStep (acc : Option Nat) (change : ObjectChange) : Option Nat :=
  match change with
  | .published pid => some pid
  | _ => acc

/-- `TransactionResponse::try_from`: takes the object changes, records the
last Published package id when the list is present, records the effects
status when effects are present, and always returns `Ok`. -/
def TransactionResponse.tryFrom (value : TxResponse) :
    Except RespError TransactionResponse :=
  let package :=
    match value.object_changes with
    | some changes => changes.foldl trPkgStep none
    | none => none
  let status :=
    match value.effects with
    | some effects => some effects.status
    | none => none
  .ok ⟨package, value.object_changes, status⟩

/-- `TransactionResponse::check_execution_status`: returns `Ok(())` when the
status is absent, bails on a `Failure` status, and returns `Ok(())` on
success. -/
def TransactionResponse.check_execution_status (t : TransactionResponse) :
    Except RespError Unit :=
  match t.execution_status with
  | none => .ok ()
  | some (.failure error) => .error (.txFailure error)
  | some .success => .ok ()

/-- Specification-side extractor: the package id of a Published change. -/
def publishedId : ObjectChange → Option Nat
  | .published pid => some pid
  | _ => none

/-- Specification-side extractor: the `CreatedObject` of a Created change
whose grouping key is `k`. -/
def createdForKey (k : String) : ObjectChange → Option CreatedObject
  | .created ty oid => if createdKey ty = k then some ⟨oid, ty⟩ else none
  | _ => none

/-- Specification-side predicate: the change is a newly created coin of the
requested type whose on-ledger value reads back as `amount`. -/
def coinMatch (read : Nat → SuiObjectResponse) (coinType : String) (amount : Nat) :
    ObjectChange → Bool
  | .created ty oid =>
    isCoin ty && ty.typeParams.head? == some coinType &&
      (match read_object (read oid) with
       | .ok c => c.value == amount
       | _ => false)
  | _ => false

/-- Specification-side predicate: processing the change in the post-split
lookup neither panics nor hits a client error (coin-typed Created changes
have a first type parameter, and ones of the requested type read back
successfully). -/
def changeClean (read : Nat → SuiObjectResponse) (coinType : String) :
    ObjectChange → Bool
  | .created ty oid =>
    !isCoin ty ||
      (match ty.typeParams with
       | [] => false
       | p :: _ =>
         !(p == coinType) ||
           (match read_object (read oid) with
            | .ok _ => true
            | _ => false))
  | _ => true

/-! Concrete inputs used to exercise the definitions. -/

/-- The struct tag of `0x2::coin::Coin<0x2::sui::SUI>`. -/
def coinTagSui : StructTag := ⟨"0x2", "coin", "Coin", ["0x2::sui::SUI"]⟩

/-- A requested coin type. -/
def ctSui : String := "0x2::sui::SUI"

/-- A gas configuration. -/
def gasW : GasInfo := ⟨none, 1000⟩

/-- An object response whose BCS payload decodes to a `Coin` of value `v`. -/
def goodCoinResp (v : Nat) : SuiObjectResponse :=
  ⟨.ok ⟨some (.moveObject ⟨.ok ⟨0, v⟩⟩)⟩⟩

/-- An object response whose object data carries no BCS payload. -/
def objRespNoBcs : SuiObjectResponse := ⟨.ok ⟨none⟩⟩

/-- An object response whose BCS payload is a package, not a Move object. -/
def objRespPackage : SuiObjectResponse := ⟨.ok ⟨some .package⟩⟩

/-- A split response creating one `Coin<0x2::sui::SUI>` with id 7. -/
def splitRespW : TxResponse :=
  ⟨some true, some ⟨.success, 0⟩, some [.created coinTagSui 7]⟩

/-- Ledger: one coin of balance 5; split confirmed; reads return value 3. -/
def envSplit : LedgerEnv := ⟨[⟨1, 5⟩], splitRespW, fun _ => goodCoinResp 3⟩

/-- Ledger: one coin of balance 5; split response never confirmed. -/
def envUnconfirmed : LedgerEnv := ⟨[⟨1, 5⟩], ⟨none, none, none⟩, fun _ => goodCoinResp 3⟩

/-- Ledger: one coin of balance 5; split confirmed; every object read serves
data without a BCS payload. -/
def envBadRead : LedgerEnv := ⟨[⟨1, 5⟩], splitRespW, fun _ => objRespNoBcs⟩

/-- Ledger: one coin of balance 2 only. -/
def envSmall : LedgerEnv := ⟨[⟨1, 2⟩], splitRespW, fun _ => goodCoinResp 3⟩

/-- Ledger: an exact-match coin followed by a greater coin. -/
def envExact : LedgerEnv := ⟨[⟨1, 3⟩, ⟨2, 9⟩], splitRespW, fun _ => goodCoinResp 3⟩

/-- Ledger: two coins strictly greater than 3, balances 5 then 9. -/
def envTwoGreater : LedgerEnv := ⟨[⟨1, 5⟩, ⟨2, 9⟩], splitRespW, fun _ => goodCoinResp 3⟩

/-- A struct tag `0xa::amod::TypeA`. -/
def tagA : StructTag := ⟨"0xa", "amod", "TypeA", []⟩

/-- A struct tag `0xa::bmod::TypeB`. -/
def tagB : StructTag := ⟨"0xa", "bmod", "TypeB", []⟩

/-- The round-trip object-change list `[Published 5, Created A 1, Created A 2,
Created B 3]`. -/
def changesPub : List ObjectChange :=
  [.published 5, .created tagA 1, .created tagA 2, .created tagB 3]

/-- A response carrying `changesPub`. -/
def respPub : TxResponse := ⟨some true, some ⟨.success, 0⟩, some changesPub⟩

/-- A response whose object-change list holds no Published record. -/
def respNoPub : TxResponse := ⟨some true, none, some [ObjectChange.other]⟩

/-- The `PublishedObjects` value extracted from `respPub`. -/
def poPub : PublishedObjects :=
  ⟨5, insertCreated (insertCreated (insertCreated emptyObjects
      (createdKey tagA) ⟨1, tagA⟩) (createdKey tagA) ⟨2, tagA⟩)
      (createdKey tagB) ⟨3, tagB⟩⟩

/-- A response carrying no effects section at all. -/
def respNoEffects : TxResponse := ⟨none, none, none⟩

/-- The `TransactionResponse` built from `respNoEffects`. -/
def trNoEffects : TransactionResponse := ⟨none, none, none⟩

/-- A response whose effects report an on-chain failure. -/
def respFailed : TxResponse := ⟨some true, some ⟨.failure "MoveAbort", 0⟩, none⟩

/-- The split submission produced by `envSplit` for amount 3. -/
def txSplitW : SubmittedTx :=
  ⟨"alice", 1, [3, 2], none, 1000, ResponseOptions.new.with_effects.with_object_changes⟩

/-! Lemmas about the scan loop. -/

/-- A scan over coins that are neither equal nor greater leaves both
trackers untouched. -/
theorem scanCoinsGo_no_hit (amount : Nat) (coins : List Coin)
    (hne : ∀ c ∈ coins, c.balance ≠ amount)
    (hng : ∀ c ∈ coins, ¬ amount < c.balance) :
    ∀ i g, scanCoinsGo amount i g coins = (none, g) := by
  induction coins with
  | nil => intro i g; rfl
  | cons c rest ih =>
    intro i g
    have h1 := hne c (List.mem_cons_self c rest)
    have h2 := hng c (List.mem_cons_self c rest)
    simp only [scanCoinsGo, if_neg h1, if_neg h2]
    exact ih (fun x hx => hne x (List.mem_cons_of_mem _ hx))
      (fun x hx => hng x (List.mem_cons_of_mem _ hx)) _ _

/-- When `idx` is the first index whose coin balance equals `amount`, the
scan stops there with `equal = some idx`. -/
theorem scanCoinsGo_first_equal (amount : Nat) :
    ∀ (coins : List Coin) (idx : Nat) (c : Coin), coins.get? idx = some c →
    c.balance = amount →
    (∀ j c', j < idx → coins.get? j = some c' → c'.balance ≠ amount) →
    ∀ i g, ∃ g', scanCoinsGo amount i g coins = (some (i + idx), g') := by
  intro coins
  induction coins with
  | nil => intro idx c hget; simp at hget
  | cons d rest ih =>
    intro idx c hget heq hfirst i g
    cases idx with
    | zero =>
      simp only [List.get?_cons_zero, Option.some.injEq] at hget
      subst hget
      exact ⟨g, by simp [scanCoinsGo, heq]⟩
    | succ n =>
      have hd : d.balance ≠ amount := hfirst 0 d (Nat.succ_pos n) rfl
      simp only [List.get?_cons_succ] at hget
      have hfirst' : ∀ j c', j < n → rest.get? j = some c' → c'.balance ≠ amount := by
        intro j c' hj hg
        exact hfirst (j + 1) c' (by omega) (by simpa using hg)
      by_cases hg : amount < d.balance
      · obtain ⟨g', hgo⟩ := ih n c hget heq hfirst' (i + 1) (some i)
        refine ⟨g', ?_⟩
        simp only [scanCoinsGo, if_neg hd, if_pos hg, hgo]
        congr 2
        omega
      · obtain ⟨g', hgo⟩ := ih n c hget heq hfirst' (i + 1) g
        refine ⟨g', ?_⟩
        simp only [scanCoinsGo, if_neg hd, if_neg hg, hgo]
        congr 2
        omega

/-- When no coin balance equals `amount` and `idx` is the last index whose
coin balance strictly exceeds it, the scan ends with
`(equal, greater) = (none, some idx)`. -/
theorem scanCoinsGo_last_greater (amount : Nat) :
    ∀ (coins : List Coin), (∀ c ∈ coins, c.balance ≠ amount) →
    ∀ (idx : Nat) (c : Coin), coins.get? idx = some c → amount < c.balance →
    (∀ j c', idx < j → coins.get? j = some c' → ¬ amount < c'.balance) →
    ∀ i g, scanCoinsGo amount i g coins = (none, some (i + idx)) := by
  intro coins
  induction coins with
  | nil => intro _ idx c hget; simp at hget
  | cons d rest ih =>
    intro hne idx c hget hgt hlast i g
    have hd : d.balance ≠ amount := hne d (List.mem_cons_self d rest)
    have hne' : ∀ c' ∈ rest, c'.balance ≠ amount :=
      fun x hx => hne x (List.mem_cons_of_mem _ hx)
    cases idx with
    | zero =>
      simp only [List.get?_cons_zero, Option.some.injEq] at hget
      subst hget
      have hng : ∀ c' ∈ rest, ¬ amount < c'.balance := by
        intro c' hc'
        obtain ⟨j, hj⟩ := List.get_of_mem hc'
        have : rest.get? j = some c' := by
          rw [List.get?_eq_get j.isLt]
          exact congrArg some hj
        exact hlast (j + 1) c' (Nat.succ_pos j) (by simpa using this)
      simp only [scanCoinsGo, if_neg hd, if_pos hgt]
      simpa using scanCoinsGo_no_hit amount rest hne' hng (i + 1) (some i)
    | succ n =>
      simp only [List.get?_cons_succ] at hget
      have hlast' : ∀ j c', n < j → rest.get? j = some c' → ¬ amount < c'.balance := by
        intro j c' hj hg
        exact hlast (j + 1) c' (by omega) (by simpa using hg)
      by_cases hgd : amount < d.balance
      · have hgo := ih hne' n c hget hgt hlast' (i + 1) (some i)
        simp only [scanCoinsGo, if_neg hd, if_pos hgd, hgo]
        congr 2
        omega
      · have hgo := ih hne' n c hget hgt hlast' (i + 1) g
        simp only [scanCoinsGo, if_neg hd, if_neg hgd, hgo]
        congr 2
        omega

/-- A nonempty set of strictly-greater coins has a last one in scan order. -/
theorem exists_last_greater (amount : Nat) :
    ∀ (coins : List Coin), (∃ c ∈ coins, amount < c.balance) →
    ∃ idx c, coins.get? idx = some c ∧ amount < c.balance ∧
      (∀ j c', idx < j → coins.get? j = some c' → ¬ amount < c'.balance) := by
  intro coins
  induction coins with
  | nil => rintro ⟨c, hc, _⟩; simp at hc
  | cons d rest ih =>
    intro hex
    by_cases hrest : ∃ c ∈ rest, amount < c.balance
    · obtain ⟨idx, c, hget, hgt, hlast⟩ := ih hrest
      refine ⟨idx + 1, c, by simpa using hget, hgt, ?_⟩
      intro j c' hj hget'
      cases j with
      | zero => omega
      | succ m =>
        exact hlast m c' (by omega) (by simpa using hget')
    · obtain ⟨c, hc, hgt⟩ := hex
      rcases List.mem_cons.mp hc with rfl | hmem
      · refine ⟨0, c, rfl, hgt, ?_⟩
        intro j c' hj hget'
        cases j with
        | zero => omega
        | succ m =>
          have hm : c' ∈ rest := List.get?_mem (by simpa using hget')
          exact fun hgt' => hrest ⟨c', hm, hgt'⟩
      · exact absurd ⟨c, hmem, hgt⟩ hrest

/-! Helper lemmas about `get_coin_amount`'s greater-than branch. -/

/-- In the greater-than branch the submission log is exactly the one split. -/
theorem get_coin_amount_greater_submits (env : LedgerEnv) (amount : Nat)
    (coinType sender : String) (gas : GasInfo) (idx : Nat) (c : Coin)
    (hscan : scanCoins amount env.coins = (none, some idx))
    (hget : env.coins.get? idx = some c) :
    (get_coin_amount env amount coinType sender gas).2 =
      [{ sender := sender, coinId := c.coin_object_id,
         amounts := [amount, c.balance - amount],
         gasObject := gas.object, gasBudget := gas.budget,
         options := ResponseOptions.new.with_effects.with_object_changes }] := by
  simp only [get_coin_amount, hscan, hget]
  split
  · split <;> rfl
  · rfl

/-- In the greater-than branch, with a locally confirmed response carrying an
object-change list, the outcome is that of the post-split lookup. -/
theorem get_coin_amount_greater_found (env : LedgerEnv) (amount : Nat)
    (coinType sender : String) (gas : GasInfo) (idx : Nat) (c : Coin)
    (changes : List ObjectChange)
    (hscan : scanCoins amount env.coins = (none, some idx))
    (hget : env.coins.get? idx = some c)
    (hconf : env.splitResponse.confirmed_local_execution = some true)
    (hch : env.splitResponse.object_changes = some changes) :
    (get_coin_amount env amount coinType sender gas).1 =
      findSplitCoin env.readObjectResponse coinType amount changes := by
  simp only [get_coin_amount, hscan, hget, hconf, hch]

/-- The post-split lookup loop returns `ok` exactly for the first
object-change satisfying `coinMatch`, and `splitResultNotFound` when none
does, provided every change is clean. -/
theorem findSplitCoin_spec (read : Nat → SuiObjectResponse) (ct : String) (amount : Nat) :
    ∀ changes : List ObjectChange, changes.all (changeClean read ct) = true →
    (changes.find? (coinMatch read ct amount) = none →
      findSplitCoin read ct amount changes = .err .splitResultNotFound) ∧
    (∀ ch, changes.find? (coinMatch read ct amount) = some ch →
      ∃ ty oid, ch = .created ty oid ∧
        findSplitCoin read ct amount changes = .ok oid) := by
  intro changes
  induction changes with
  | nil =>
    intro _
    refine ⟨fun _ => rfl, ?_⟩
    intro ch h
    simp at h
  | cons ch rest ih =>
    intro hall
    rw [List.all_cons, Bool.and_eq_true] at hall
    obtain ⟨hclean, hrest⟩ := hall
    have ihr := ih hrest
    have skip : coinMatch read ct amount ch = false →
        findSplitCoin read ct amount (ch :: rest) = findSplitCoin read ct amount rest →
        (List.find? (coinMatch read ct amount) (ch :: rest) = none →
          findSplitCoin read ct amount (ch :: rest) = .err .splitResultNotFound) ∧
        (∀ ch', List.find? (coinMatch read ct amount) (ch :: rest) = some ch' →
          ∃ ty oid, ch' = .created ty oid ∧
            findSplitCoin read ct amount (ch :: rest) = .ok oid) := by
      intro hcm heq
      have hneg : ¬ coinMatch read ct amount ch = true := by simp [hcm]
      rw [List.find?_cons_of_neg _ hneg, heq]
      exact ihr
    cases ch with
    | other => exact skip rfl rfl
    | published pid => exact skip rfl rfl
    | created ty oid =>
      cases hic : isCoin ty with
      | false =>
        refine skip ?_ ?_
        · simp [coinMatch, hic]
        · simp [findSplitCoin, hic]
      | true =>
        simp only [changeClean, hic, Bool.not_true, Bool.false_or] at hclean
        cases htp : ty.typeParams with
        | nil => rw [htp] at hclean; simp at hclean
        | cons p ps =>
          rw [htp] at hclean
          have hclean2 : (!(p == ct) ||
              (match read_object (read oid) with
               | ReadOutcome.ok _ => true
               | _ => false)) = true := hclean
          have hhead : (ty.typeParams.head? == some ct) = (p == ct) := by
            rw [htp]
            rfl
          cases hpc : p == ct with
          | false =>
            refine skip ?_ ?_
            · simp [coinMatch, hhead, hpc]
            · simp [findSplitCoin, hic, htp, hpc]
          | true =>
            rw [hpc] at hclean2
            simp only [Bool.not_true, Bool.false_or] at hclean2
            cases hro : read_object (read oid) with
            | clientErr e => rw [hro] at hclean2; simp at hclean2
            | panicked => rw [hro] at hclean2; simp at hclean2
            | ok c =>
              by_cases hv : c.value = amount
              · have hcm : coinMatch read ct amount (.created ty oid) = true := by
                  simp [coinMatch, hic, hhead, hpc, hro, hv]
                rw [List.find?_cons_of_pos _ hcm]
                refine ⟨fun h => ?_, ?_⟩
                · cases h
                intro ch' h
                rw [Option.some.injEq] at h
                subst h
                refine ⟨ty, oid, rfl, ?_⟩
                simp [findSplitCoin, hic, htp, hpc, hro, hv]
              · refine skip ?_ ?_
                · simp [coinMatch, hic, hhead, hpc, hro, hv]
                · simp [findSplitCoin, hic, htp, hpc, hro, hv]

/-! Claim theorems. -/

/-- Claim C2: when every coin's balance is strictly below the requested
amount, `get_coin_amount` fails with the insufficient-balance error carrying
the sender, the coin type and the amount, and submits no transaction. -/
theorem spec_C2 (env : LedgerEnv) (amount : Nat) (coinType sender : String)
    (gas : GasInfo) (hlt : ∀ c ∈ env.coins, c.balance < amount) :
    get_coin_amount env amount coinType sender gas =
      (.err (.insufficientBalance sender coinType amount), []) := by
  have hne : ∀ c ∈ env.coins, c.balance ≠ amount :=
    fun c hc => Nat.ne_of_lt (hlt c hc)
  have hng : ∀ c ∈ env.coins, ¬ amount < c.balance := by
    intro c hc
    have := hlt c hc
    omega
  have hscan : scanCoins amount env.coins = (none, none) :=
    scanCoinsGo_no_hit amount env.coins hne hng 0 none
  simp [get_coin_amount, hscan]

/-- Witness for C2 at a concrete ledger. -/
theorem spec_C2_witness :
    get_coin_amount envSmall 3 ctSui "alice" gasW =
      (.err (.insufficientBalance "alice" ctSui 3), []) :=
  spec_C2 envSmall 3 ctSui "alice" gasW (by decide)

/-- Claim C3: when `idx` is the first scan position whose coin balance
exactly equals the requested amount, `get_coin_amount` returns that coin's
object id and submits no transaction. -/
theorem spec_C3 (env : LedgerEnv) (amount : Nat) (coinType sender : String)
    (gas : GasInfo) (idx : Nat) (c : Coin)
    (hget : env.coins.get? idx = some c) (heq : c.balance = amount)
    (hfirst : ∀ j c', j < idx → env.coins.get? j = some c' → c'.balance ≠ amount) :
    get_coin_amount env amount coinType sender gas = (.ok c.coin_object_id, []) := by
  obtain ⟨g', hscan⟩ :=
    scanCoinsGo_first_equal amount env.coins idx c hget heq hfirst 0 none
  have hscan' : scanCoins amount env.coins = (some idx, g') := by
    simpa [scanCoins] using hscan
  simp only [get_coin_amount, hscan', hget]

/-- Witness for C3: the exact match at position 0 wins over the later
greater coin and no split happens. -/
theorem spec_C3_witness :
    get_coin_amount envExact 3 ctSui "alice" gasW = (.ok 1, []) :=
  spec_C3 envExact 3 ctSui "alice" gasW 0 ⟨1, 3⟩ rfl rfl
    (fun j _ hj _ => absurd hj (Nat.not_lt_zero j))

/-- Claim C4: with no exact match, the coin split is the last coin in scan
order whose balance strictly exceeds the amount, divided into
`[amount, balance - amount]`. -/
theorem spec_C4 (env : LedgerEnv) (amount : Nat) (coinType sender : String)
    (gas : GasInfo) (idx : Nat) (c : Coin)
    (hne : ∀ c' ∈ env.coins, c'.balance ≠ amount)
    (hget : env.coins.get? idx = some c) (hgt : amount < c.balance)
    (hlast : ∀ j c', idx < j → env.coins.get? j = some c' → ¬ amount < c'.balance) :
    (get_coin_amount env amount coinType sender gas).2 =
      [{ sender := sender, coinId := c.coin_object_id,
         amounts := [amount, c.balance - amount],
         gasObject := gas.object, gasBudget := gas.budget,
         options := ResponseOptions.new.with_effects.with_object_changes }] := by
  have hscan' : scanCoins amount env.coins = (none, some idx) := by
    simpa [scanCoins] using
      scanCoinsGo_last_greater amount env.coins hne idx c hget hgt hlast 0 none
  exact get_coin_amount_greater_submits env amount coinType sender gas idx c hscan' hget

/-- Witness for C4: of the two greater coins (balances 5 then 9), the later
one (id 2) is split into `[3, 6]`. -/
theorem spec_C4_witness :
    (get_coin_amount envTwoGreater 3 ctSui "alice" gasW).2 =
      [{ sender := "alice", coinId := 2, amounts := [3, 6],
         gasObject := none, gasBudget := 1000,
         options := ResponseOptions.new.with_effects.with_object_changes }] := by
  have h := spec_C4 envTwoGreater 3 ctSui "alice" gasW 1 ⟨2, 9⟩ (by decide) rfl
    (by decide) ?_
  · exact h
  · intro j c' hj hg
    rcases j with _ | _ | m
    · omega
    · omega
    · simp [envTwoGreater] at hg

/-- Claim C8: every split submission performed by `get_coin_amount` requests
object-change reporting in addition to effects in its response options. -/
theorem spec_C8 (env : LedgerEnv) (amount : Nat) (coinType sender : String)
    (gas : GasInfo) (s : SubmittedTx)
    (hs : s ∈ (get_coin_amount env amount coinType sender gas).2) :
    s.options.show_object_changes = true ∧ s.options.show_effects = true := by
  simp only [get_coin_amount] at hs
  split at hs
  · split at hs <;> simp at hs
  · split at hs
    · simp at hs
    · split at hs
      · split at hs <;>
          (simp only [List.mem_singleton] at hs; subst hs; exact ⟨rfl, rfl⟩)
      · simp only [List.mem_singleton] at hs
        subst hs
        exact ⟨rfl, rfl⟩
  · simp at hs

/-- Witness for C8: the concrete split submitted by `envSplit` carries both
flags. -/
theorem spec_C8_witness :
    (get_coin_amount envSplit 3 ctSui "alice" gasW).2 = [txSplitW] ∧
    txSplitW.options.show_object_changes = true ∧
    txSplitW.options.show_effects = true :=
  ⟨by decide, spec_C8 envSplit 3 ctSui "alice" gasW txSplitW (by decide)⟩

/-- Claim C9: when the split response's local-confirmation flag is absent or
false, `get_coin_amount` ends in a panic (failed `assert!`), as does
`sign_and_assert_success`, rather than in a typed error. -/
theorem spec_C9 (env : LedgerEnv) (amount : Nat) (coinType sender : String)
    (gas : GasInfo)
    (hne : ∀ c ∈ env.coins, c.balance ≠ amount)
    (hex : ∃ c ∈ env.coins, amount < c.balance)
    (hconf : env.splitResponse.confirmed_local_execution ≠ some true) :
    (get_coin_amount env amount coinType sender gas).1 = Outcome.panicked ∧
    sign_and_assert_success env.splitResponse = Outcome.panicked := by
  obtain ⟨idx, c, hget, hgt, hlast⟩ := exists_last_greater amount env.coins hex
  have hscan' : scanCoins amount env.coins = (none, some idx) := by
    simpa [scanCoins] using
      scanCoinsGo_last_greater amount env.coins hne idx c hget hgt hlast 0 none
  constructor
  · rcases h : env.splitResponse.confirmed_local_execution with _ | b
    · simp only [get_coin_amount, hscan', hget, h]
    · cases b
      · simp only [get_coin_amount, hscan', hget, h]
      · exact absurd h hconf
  · unfold sign_and_assert_success
    rcases h : env.splitResponse.confirmed_local_execution with _ | b
    · rfl
    · cases b
      · rfl
      · exact absurd h hconf

/-- Witness for C9: an unconfirmed split response makes the concrete call
panic. -/
theorem spec_C9_witness :
    (get_coin_amount envUnconfirmed 3 ctSui "alice" gasW).1 = Outcome.panicked ∧
    sign_and_assert_success envUnconfirmed.splitResponse = Outcome.panicked :=
  spec_C9 envUnconfirmed 3 ctSui "alice" gasW (by decide) (by decide) (by decide)

/-- Claim C1: with no exact match but some strictly greater coin, and a
confirmed split response carrying an object-change list whose entries are
clean, `get_coin_amount` submits exactly one split dividing the chosen coin
into `[amount, balance - amount]`; it returns the object id of a created
coin of the requested type whose read-back value equals the amount when one
appears in the object-change list, and fails with `splitResultNotFound`
when none does. -/
theorem spec_C1 (env : LedgerEnv) (amount : Nat) (coinType sender : String)
    (gas : GasInfo) (changes : List ObjectChange)
    (hne : ∀ c ∈ env.coins, c.balance ≠ amount)
    (hex : ∃ c ∈ env.coins, amount < c.balance)
    (hconf : env.splitResponse.confirmed_local_execution = some true)
    (hch : env.splitResponse.object_changes = some changes)
    (hclean : changes.all (changeClean env.readObjectResponse coinType) = true) :
    (∃ c ∈ env.coins, amount < c.balance ∧
      (get_coin_amount env amount coinType sender gas).2 =
        [{ sender := sender, coinId := c.coin_object_id,
           amounts := [amount, c.balance - amount],
           gasObject := gas.object, gasBudget := gas.budget,
           options := ResponseOptions.new.with_effects.with_object_changes }]) ∧
    (changes.find? (coinMatch env.readObjectResponse coinType amount) = none →
      (get_coin_amount env amount coinType sender gas).1 =
        .err .splitResultNotFound) ∧
    (∀ ch, changes.find? (coinMatch env.readObjectResponse coinType amount) = some ch →
      ∃ ty oid, ch = .created ty oid ∧ ch ∈ changes ∧
        coinMatch env.readObjectResponse coinType amount ch = true ∧
        (get_coin_amount env amount coinType sender gas).1 = .ok oid) := by
  obtain ⟨idx, c, hget, hgt, hlast⟩ := exists_last_greater amount env.coins hex
  have hscan' : scanCoins amount env.coins = (none, some idx) := by
    simpa [scanCoins] using
      scanCoinsGo_last_greater amount env.coins hne idx c hget hgt hlast 0 none
  have hsub :=
    get_coin_amount_greater_submits env amount coinType sender gas idx c hscan' hget
  have hfst :=
    get_coin_amount_greater_found env amount coinType sender gas idx c changes
      hscan' hget hconf hch
  have hspec := findSplitCoin_spec env.readObjectResponse coinType amount changes hclean
  refine ⟨⟨c, List.get?_mem hget, hgt, hsub⟩, ?_, ?_⟩
  · intro hnone
    rw [hfst]
    exact hspec.1 hnone
  · intro ch hfind
    obtain ⟨ty, oid, hche, hok⟩ := hspec.2 ch hfind
    exact ⟨ty, oid, hche, List.mem_of_find?_eq_some hfind, List.find?_some hfind,
      by rw [hfst]; exact hok⟩

/-- Witness for C1: the concrete split of the balance-5 coin yields the
created coin with id 7, whose read-back value is 3. -/
theorem spec_C1_witness :
    (get_coin_amount envSplit 3 ctSui "alice" gasW).1 = Outcome.ok 7 := by
  have h3 := (spec_C1 envSplit 3 ctSui "alice" gasW [.created coinTagSui 7]
    (by decide) (by decide) rfl rfl (by decide)).2.2
  obtain ⟨ty, oid, hche, _, _, hout⟩ :=
    h3 (ObjectChange.created coinTagSui 7) (by decide)
  injection hche with h1 h2
  subst h2
  exact hout

/-! Lemmas about the `PublishedObjects::try_from` fold. -/

/-- The per-key content of the map built by the fold: the starting content
followed by the Created entries with that key, in scan order. -/
theorem foldl_pubStep_objects (k : String) :
    ∀ (changes : List ObjectChange) (pkg : Option Nat)
      (m : String → List CreatedObject),
    ((changes.foldl pubStep (pkg, m)).2) k = m k ++ changes.filterMap (createdForKey k) := by
  intro changes
  induction changes with
  | nil => intro pkg m; simp
  | cons ch rest ih =>
    intro pkg m
    cases ch with
    | created ty oid =>
      rw [List.foldl_cons]
      show ((rest.foldl pubStep (pkg, insertCreated m (createdKey ty) ⟨oid, ty⟩)).2) k = _
      rw [ih]
      by_cases hk : createdKey ty = k
      · simp [insertCreated, createdForKey, hk, List.filterMap_cons]
      · have hk' : ¬ k = createdKey ty := fun h => hk h.symm
        simp [insertCreated, createdForKey, hk, hk', List.filterMap_cons]
    | published pid =>
      rw [List.foldl_cons]
      show ((rest.foldl pubStep (some pid, m)).2) k = _
      rw [ih]
      simp [createdForKey, List.filterMap_cons]
    | other =>
      rw [List.foldl_cons]
      show ((rest.foldl pubStep (pkg, m)).2) k = _
      rw [ih]
      simp [createdForKey, List.filterMap_cons]

/-- The package tracked by the fold: the last Published id in scan order
when one exists, the starting value otherwise. -/
theorem foldl_pubStep_package :
    ∀ (changes : List ObjectChange) (pkg : Option Nat)
      (m : String → List CreatedObject),
    (changes.foldl pubStep (pkg, m)).1 =
      Option.or (changes.filterMap publishedId).getLast? pkg := by
  intro changes
  induction changes with
  | nil => intro pkg m; rfl
  | cons ch rest ih =>
    intro pkg m
    cases ch with
    | created ty oid =>
      rw [List.foldl_cons]
      show (rest.foldl pubStep (pkg, insertCreated m (createdKey ty) ⟨oid, ty⟩)).1 = _
      rw [ih]
      simp [publishedId, List.filterMap_cons]
    | other =>
      rw [List.foldl_cons]
      show (rest.foldl pubStep (pkg, m)).1 = _
      rw [ih]
      simp [publishedId, List.filterMap_cons]
    | published pid =>
      rw [List.foldl_cons]
      show (rest.foldl pubStep (some pid, m)).1 = _
      rw [ih]
      rw [show List.filterMap publishedId (ObjectChange.published pid :: rest) =
        pid :: rest.filterMap publishedId from by simp [publishedId, List.filterMap_cons]]
      cases hL : rest.filterMap publishedId with
      | nil => rfl
      | cons q qs =>
        rw [List.getLast?_cons_cons]
        obtain ⟨x, hx⟩ := Option.isSome_iff_exists.mp
          (List.getLast?_isSome.mpr (List.cons_ne_nil q qs))
        rw [hx]
        rfl

/-- When `try_from` succeeds, the result's fields are the two components of
the fold over the object-change list. -/
theorem tryFrom_ok_fold (resp : TxResponse) (changes : List ObjectChange)
    (po : PublishedObjects)
    (hch : resp.object_changes = some changes)
    (hok : PublishedObjects.tryFrom resp = .ok po) :
    po.objects = (changes.foldl pubStep (none, emptyObjects)).2 ∧
    some po.package_id = (changes.foldl pubStep (none, emptyObjects)).1 := by
  unfold PublishedObjects.tryFrom at hok
  rw [hch] at hok
  cases hacc : (changes.foldl pubStep (none, emptyObjects)).1 with
  | none =>
    simp only [hacc] at hok
    cases hok
  | some pid =>
    simp only [hacc] at hok
    injection hok with h
    subst h
    exact ⟨rfl, rfl⟩

/-- Claim C5: whenever the object-change list is present and
`PublishedObjects::try_from` succeeds, the resulting map sends each key to
exactly the Created entries with that key, in scan order; changes that are
neither Created nor Published contribute nothing. -/
theorem spec_C5 (resp : TxResponse) (changes : List ObjectChange)
    (po : PublishedObjects) (k : String)
    (hch : resp.object_changes = some changes)
    (hok : PublishedObjects.tryFrom resp = .ok po) :
    po.objects k = changes.filterMap (createdForKey k) := by
  obtain ⟨hobj, _⟩ := tryFrom_ok_fold resp changes po hch hok
  rw [hobj, foldl_pubStep_objects k changes none emptyObjects]
  rfl

/-- Witness for C5: the round-trip response
`[Published 5, Created A 1, Created A 2, Created B 3]`. -/
theorem spec_C5_witness :
    PublishedObjects.tryFrom respPub = Except.ok poPub ∧
    poPub.objects (createdKey tagA) = [⟨1, tagA⟩, ⟨2, tagA⟩] := by
  constructor
  · rfl
  · have h := spec_C5 respPub changesPub poPub (createdKey tagA) rfl rfl
    rw [h]
    decide

/-- Claim C6: with the object-change list present, `published_objects`
returns the package id of the last Published record in scan order, and
fails with the missing-package-id error when there is no Published record. -/
theorem spec_C6 (resp : TxResponse) (changes : List ObjectChange)
    (hch : resp.object_changes = some changes) :
    (∀ p, (changes.filterMap publishedId).getLast? = some p →
      ∃ po, PublishedObjects.tryFrom resp = .ok po ∧ po.package_id = p) ∧
    (changes.filterMap publishedId = [] →
      PublishedObjects.tryFrom resp = .error .missingPackageId) := by
  have hpkg := foldl_pubStep_package changes none emptyObjects
  constructor
  · intro p hp
    have hpkg' : (changes.foldl pubStep (none, emptyObjects)).1 = some p := by
      rw [hpkg, hp]
      rfl
    refine ⟨⟨p, (changes.foldl pubStep (none, emptyObjects)).2⟩, ?_, rfl⟩
    unfold PublishedObjects.tryFrom
    rw [hch]
    simp only [hpkg']
  · intro hnil
    have hpkg' : (changes.foldl pubStep (none, emptyObjects)).1 = none := by
      rw [hpkg, hnil]
      rfl
    unfold PublishedObjects.tryFrom
    rw [hch]
    simp only [hpkg']

/-- Witness for C6: the round-trip response yields package id 5; a response
with no Published record yields the missing-package-id error. -/
theorem spec_C6_witness :
    (∃ po, PublishedObjects.tryFrom respPub = Except.ok po ∧ po.package_id = 5) ∧
    PublishedObjects.tryFrom respNoPub = Except.error RespError.missingPackageId :=
  ⟨(spec_C6 respPub changesPub rfl).1 5 (by decide),
   (spec_C6 respNoPub [ObjectChange.other] rfl).2 (by decide)⟩

/-- Claim C7, evaluated at the deciding inputs: on a response with no
effects section, `get_transaction_effects_v1` and
`ensure_transaction_success` fail with the missing-effects error (distinct
from the failure-status error, which requires effects to be present) — but
`TransactionResponse::check_execution_status`, the success check of
`TransactionResponse`, returns `Ok(())` on the same input instead of
failing, contradicting the claim. -/
theorem spec_C7 :
    get_transaction_effects_v1 respNoEffects = Except.error RespError.missingEffects ∧
    ensure_transaction_success respNoEffects = Except.error RespError.missingEffects ∧
    ensure_transaction_success respFailed = Except.error (RespError.txFailure "MoveAbort") ∧
    TransactionResponse.tryFrom respNoEffects = Except.ok trNoEffects ∧
    TransactionResponse.check_execution_status trNoEffects = Except.ok () :=
  ⟨rfl, rfl, rfl, rfl, rfl⟩

/-- Claim C10: an object response without a BCS payload (or whose payload is
a package) makes `read_object` panic rather than err, and the panic is
reachable through `get_coin_amount`'s post-split lookup: the concrete call
submits its split and then panics. -/
theorem spec_C10 :
    read_object objRespNoBcs = ReadOutcome.panicked ∧
    read_object objRespPackage = ReadOutcome.panicked ∧
    get_coin_amount envBadRead 3 ctSui "alice" gasW =
      (Outcome.panicked, [txSplitW]) := by
  refine ⟨rfl, rfl, ?_⟩
  decide

end AfSui
